import Mathlib

/-!
Shallow embedding of the certificate-scanning plugin of this repository
(`scanner/plugins/certificates/certificates.go`) together with the
plain-filesystem walker (`provider/filesystem`), and theorems checking the
specification claims against it.

Go pointers are embedded as `Option`; Go code that can panic is embedded as
a `GoResult`, whose `panicked` constructor carries the runtime panic message.
External collaborators that the plugin calls (pem.Decode, pkcs7.Parse, the
x509 helpers of the same package that are not part of the sources) are taken
as parameters, so every theorem quantifies over their possible behaviours.
-/

/-- Result of running a piece of Go code that may panic: either a normal
value or a runtime panic carrying the panic message. -/
inductive GoResult (α : Type) where
  | ok : α → GoResult α
  | panicked : String → GoResult α
  deriving Repr, DecidableEq

/-- The Go runtime message raised by dereferencing a nil pointer. -/
def nilPointerPanicMsg : String :=
  "runtime error: invalid memory address or nil pointer dereference"

/-- The string value of the cyclonedx-go constant cdx.CryptoAssetTypeAlgorithm. -/
def cryptoAssetTypeAlgorithm : String := "algorithm"

/-- Embeds the fields of cdx.CryptoAlgorithmProperties that the plugin reads.
Enumerated cyclonedx-go types are string-valued; CertificationLevel and
CryptoFunctions are pointers to slices in Go, embedded as Option of a list. -/
structure AlgorithmProperties where
  primitive : String
  executionEnvironment : String
  implementationPlatform : String
  certificationLevel : Option (List String)
  cryptoFunctions : Option (List String)
  padding : String
  deriving Repr, DecidableEq

/-- Embeds the fields of cdx.CertificateProperties that the plugin reads;
cdx.BOMReference is a string type in cyclonedx-go. -/
structure CertificateProperties where
  signatureAlgorithmRef : String
  subjectPublicKeyRef : String
  deriving Repr, DecidableEq

/-- Embeds the field of cdx.RelatedCryptoMaterialProperties that the plugin
reads. -/
structure RelatedCryptoMaterialProperties where
  algorithmRef : String
  deriving Repr, DecidableEq

/-- Embeds the fields of cdx.CryptoProperties that the plugin reads. The
nested property records are pointers in Go, hence Option here. -/
structure CryptoProperties where
  assetType : String
  algorithmProperties : Option AlgorithmProperties
  certificateProperties : Option CertificateProperties
  relatedCryptoMaterialProperties : Option RelatedCryptoMaterialProperties
  oid : String
  deriving Repr, DecidableEq

/-- Embeds the fields of cdx.Component that the plugin reads: the bomRef and
name strings plus the CryptoProperties pointer. -/
structure Component where
  bomRef : String
  name : String
  cryptoProperties : Option CryptoProperties
  deriving Repr, DecidableEq

/-- The panic message of strippedAlgorithmEquals (certificates.go line 196). -/
def strippedAlgorithmEqualsPanicMsg : String :=
  "scanner: strippedAlgorithmEquals was called on a non-algorithm component"

/-- The panic message of strippedAlgorithmContains (certificates.go line 182). -/
def strippedAlgorithmContainsPanicMsg : String :=
  "scanner: strippedAlgorithmContains was called on a non-algorithm component"

/-- Embeds strippedAlgorithmEquals (certificates.go lines 194-207), keeping
the Go evaluation order: the non-algorithm guard dereferences the
CryptoProperties pointer of a first, then of b, and the conjunction on lines
199-206 short-circuits left to right, so a later pointer field is only
dereferenced when every earlier conjunct holds. -/
def strippedAlgorithmEquals (a b : Component) : GoResult Bool :=
  match a.cryptoProperties with
  | none => .panicked nilPointerPanicMsg
  | some cpa =>
    if cpa.assetType ≠ cryptoAssetTypeAlgorithm then
      .panicked strippedAlgorithmEqualsPanicMsg
    else
      match b.cryptoProperties with
      | none => .panicked nilPointerPanicMsg
      | some cpb =>
        if cpb.assetType ≠ cryptoAssetTypeAlgorithm then
          .panicked strippedAlgorithmEqualsPanicMsg
        else if a.name ≠ b.name then .ok false
        else
          match cpa.algorithmProperties, cpb.algorithmProperties with
          | none, _ => .panicked nilPointerPanicMsg
          | some _, none => .panicked nilPointerPanicMsg
          | some apa, some apb =>
            if apa.primitive ≠ apb.primitive then .ok false
            else if apa.executionEnvironment ≠ apb.executionEnvironment then .ok false
            else if apa.implementationPlatform ≠ apb.implementationPlatform then .ok false
            else
              match apa.certificationLevel, apb.certificationLevel with
              | none, _ => .panicked nilPointerPanicMsg
              | some _, none => .panicked nilPointerPanicMsg
              | some cla, some clb =>
                if cla ≠ clb then .ok false
                else
                  match apa.cryptoFunctions, apb.cryptoFunctions with
                  | none, _ => .panicked nilPointerPanicMsg
                  | some _, none => .panicked nilPointerPanicMsg
                  | some cfa, some cfb =>
                    if cfa ≠ cfb then .ok false
                    else if cpa.oid ≠ cpb.oid then .ok false
                    else if apa.padding ≠ apb.padding then .ok false
                    else .ok true

/-- Loop body of strippedAlgorithmContains (certificates.go lines 184-188):
scan the list, dereferencing the CryptoProperties pointer of each element,
and call strippedAlgorithmEquals only on elements whose asset type is
algorithm; the second component of the Go result pair is the zero value
cdx.Component when nothing matched. -/
def strippedAlgorithmContainsLoop (comp : Component) :
    List Component → GoResult (Bool × Component)
  | [] => .ok (false, Component.mk "" "" none)
  | comp2 :: rest =>
    match comp2.cryptoProperties with
    | none => .panicked nilPointerPanicMsg
    | some cp2 =>
      if cp2.assetType = cryptoAssetTypeAlgorithm then
        match strippedAlgorithmEquals comp comp2 with
        | .panicked msg => .panicked msg
        | .ok true => .ok (true, comp2)
        | .ok false => strippedAlgorithmContainsLoop comp rest
      else strippedAlgorithmContainsLoop comp rest

/-- Embeds strippedAlgorithmContains (certificates.go lines 180-191). -/
def strippedAlgorithmContains (comp : Component) (list : List Component) :
    GoResult (Bool × Component) :=
  match comp.cryptoProperties with
  | none => .panicked nilPointerPanicMsg
  | some cp =>
    if cp.assetType ≠ cryptoAssetTypeAlgorithm then
      .panicked strippedAlgorithmContainsPanicMsg
    else strippedAlgorithmContainsLoop comp list

/-- Embeds one iteration of the loop in replaceBomRefUsages (certificates.go
lines 210-234). In the Go source the loop variable comp is a by-value copy of
the slice element, so the assignment comp.BOMRef = string(newRef) on line 213
writes to the copy and is lost when the iteration ends; writes that go
through the CryptoProperties pointer are visible in the slice. After a
reference field is replaced the loop moves to the next component via
continue, so at most one reference field of a component is rewritten, and the
related-crypto-material branch is only reached when CertificateProperties is
nil. The embedding maps each component to its observable value after the
call, assuming components do not alias one another through shared pointers. -/
def replaceBomRefUsagesOne (oldRef newRef : String) (comp : Component) : Component :=
  match comp.cryptoProperties with
  | none => comp
  | some cp =>
    match cp.certificateProperties with
    | some certProps =>
      if certProps.signatureAlgorithmRef = oldRef then
        let certProps2 := { certProps with signatureAlgorithmRef := newRef }
        let cp2 := { cp with certificateProperties := some certProps2 }
        { comp with cryptoProperties := some cp2 }
      else if certProps.subjectPublicKeyRef = oldRef then
        let certProps2 := { certProps with subjectPublicKeyRef := newRef }
        let cp2 := { cp with certificateProperties := some certProps2 }
        { comp with cryptoProperties := some cp2 }
      else comp
    | none =>
      match cp.relatedCryptoMaterialProperties with
      | some relProps =>
        if relProps.algorithmRef = oldRef then
          let relProps2 := { relProps with algorithmRef := newRef }
          let cp2 := { cp with relatedCryptoMaterialProperties := some relProps2 }
          { comp with cryptoProperties := some cp2 }
        else comp
      | none => comp

/-- Embeds replaceBomRefUsages (certificates.go lines 210-234) as the
observable contents of the component slice after the call. -/
def replaceBomRefUsages (oldRef newRef : String) (components : List Component) :
    List Component :=
  components.map (replaceBomRefUsagesOne oldRef newRef)

/-- Embeds cdx.Dependency: the Ref string plus the list its Dependencies
pointer points at (the plugin always populates the pointer). -/
structure Dependency where
  ref : String
  dependencies : List String
  deriving Repr, DecidableEq

/-- Loop of IndexBomRefInDependencySlice (certificates.go lines 268-272),
carrying the running index. -/
def indexBomRefAux : List Dependency → String → Int → Int
  | [], _, _ => -1
  | dep :: rest, bomRef, i =>
    if dep.ref = bomRef then i else indexBomRefAux rest bomRef (i + 1)

/-- Embeds IndexBomRefInDependencySlice (certificates.go lines 267-275):
index of the first record whose Ref equals bomRef, or -1 when absent. -/
def IndexBomRefInDependencySlice (slice : List Dependency) (bomRef : String) : Int :=
  indexBomRefAux slice bomRef 0

/-- Inner loop of MergeDependencyStructSlice (certificates.go lines 254-258):
append each incoming target that the current target list does not already
contain. -/
def mergeDependencyTargets (existing newTargets : List String) : List String :=
  newTargets.foldl (fun acc s => if s ∈ acc then acc else acc ++ [s]) existing

/-- One iteration of the outer loop of MergeDependencyStructSlice
(certificates.go lines 250-262): merge the incoming record into the first
record with the same Ref — the index IndexBomRefInDependencySlice returns —
or append it at the end when no record matches. -/
def mergeDependencyIntoFirst (otherStruct : Dependency) :
    List Dependency → List Dependency
  | [] => [otherStruct]
  | d :: rest =>
    if d.ref = otherStruct.ref then
      ⟨d.ref, mergeDependencyTargets d.dependencies otherStruct.dependencies⟩ :: rest
    else d :: mergeDependencyIntoFirst otherStruct rest

/-- Embeds MergeDependencyStructSlice (certificates.go lines 249-264). -/
def MergeDependencyStructSlice (thisSlice other : List Dependency) : List Dependency :=
  other.foldl (fun cur o => mergeDependencyIntoFirst o cur) thisSlice

/-- Written from the words of the specification claim: the union of an
existing target list with the incoming targets keeps the existing targets and
appends the incoming targets not already present, in order of first
appearance and without duplicates. -/
def unionFirstAppearance (existing newTargets : List String) : List String :=
  existing ++
    newTargets.foldl (fun acc s => if s ∈ existing ∨ s ∈ acc then acc else acc ++ [s]) []

/-- Written from the words of the specification claim: rewrite the first
record with the same Ref to the union of its targets with the incoming ones. -/
def specUpdateFirstRecord (o : Dependency) : List Dependency → List Dependency
  | [] => []
  | d :: rest =>
    if d.ref = o.ref then
      ⟨d.ref, unionFirstAppearance d.dependencies o.dependencies⟩ :: rest
    else d :: specUpdateFirstRecord o rest

/-- Written from the words of the specification claim: records with the same
source Ref are unioned into the existing record for that Ref, records whose
Ref is absent are appended whole. -/
def MergeDependencyStructSliceSpec (thisSlice other : List Dependency) : List Dependency :=
  other.foldl
    (fun cur o =>
      if IndexBomRefInDependencySlice cur o.ref = -1 then cur ++ [o]
      else specUpdateFirstRecord o cur)
    thisSlice

/-- Embeds UpdateBOM line 112: the freshly generated components are appended
to the existing BOM component slice, with no deduplication against it. -/
def updateBOMAppendComponents (existing newComponents : List Component) : List Component :=
  existing ++ newComponents

/-- Embeds dependencyMapToStructSlice (certificates.go lines 236-247). The Go
function ranges over a map; Go map iteration order is unspecified and
deliberately randomized between runs, so the embedding takes the iteration
sequence — some permutation of the map entries — as its input. -/
def dependencyMapToStructSlice (mapIteration : List (String × List String)) :
    List Dependency :=
  mapIteration.foldl (fun deps e => deps ++ [⟨e.1, e.2⟩]) []

/-- Embeds UpdateBOM line 81: uuid.SetRand(rand.New(rand.NewSource(1))); the
generator seed is the constant 1, independent of the input. -/
def updateBOMUuidSeed : Nat := 1

/-- The error conditions a generateDAG call reports: the sentinel
errX509UnknownAlgorithm of the package (or an error wrapping it, which
errors.Is matches), or any other error. generateDAG itself lives in x509.go
of the same package; the loop in UpdateBOM only discriminates these two
cases. -/
inductive GenerateDAGError where
  | x509UnknownAlgorithm (detail : String)
  | other (msg : String)
  deriving Repr, DecidableEq

/-- The errors UpdateBOM can return from its certificate loop: a fatal
generateDAG error or a DAG merge error. -/
inductive UpdateBOMError (ε : Type) where
  | generateFailed (e : GenerateDAGError)
  | mergeFailed (e : ε)
  deriving Repr, DecidableEq

/-- Embeds the certificate loop of UpdateBOM (certificates.go lines 85-97)
over the list of per-certificate generateDAG outcomes, each a partial DAG
plus an optional error: an unknown-algorithm error is logged and the partial
DAG is still merged into the running DAG; any other generateDAG error aborts
the loop with that error; a merge failure aborts the loop with that error.
δ is the DAG type and ε the merge error type, both abstract here because the
bom-dag package is an external collaborator of this file. -/
def updateBOMCertLoop {δ ε : Type} (merge : δ → δ → Except ε δ) :
    δ → List (δ × Option GenerateDAGError) → Except (UpdateBOMError ε) δ
  | dag, [] => .ok dag
  | dag, (certDAG, genErr) :: rest =>
    match genErr with
    | some (.other msg) => .error (.generateFailed (.other msg))
    | some (.x509UnknownAlgorithm d) =>
      match merge dag certDAG with
      | .error e => .error (.mergeFailed e)
      | .ok dag2 => updateBOMCertLoop merge dag2 rest
    | none =>
      match merge dag certDAG with
      | .error e => .error (.mergeFailed e)
      | .ok dag2 => updateBOMCertLoop merge dag2 rest

/-- The errors the per-file walk callback of UpdateBOM can report. -/
inductive FnError where
  | parsingFailedAlthoughChecked (inner : String) (plugin : String)
  | ioFailure (msg : String)
  deriving Repr, DecidableEq

/-- Modelled from the spec: scanner_errors.GetParsingFailedAlthoughCheckedError
(package scanner/errors, whose source is not under src/) wraps a parse error
reported by a named plugin into the recoverable condition that a file matched
a recognized extension but failed to parse. -/
def getParsingFailedAlthoughCheckedError (inner plugin : String) : FnError :=
  .parsingFailedAlthoughChecked inner plugin

/-- Modelled from the spec: errors.Is(err, ErrParsingFailedAlthoughChecked)
holds exactly for the errors GetParsingFailedAlthoughCheckedError produces,
signalling the recoverable condition distinctly from other errors. -/
def errIsParsingFailedAlthoughChecked : FnError → Bool
  | .parsingFailedAlthoughChecked _ _ => true
  | .ioFailure _ => false

/-- Helper for filepathExt: scan the reversed path; a dot before any path
separator marks the extension, a separator seen first means no extension. -/
def filepathExtAux : List Char → List Char → List Char
  | [], _ => []
  | c :: rest, acc =>
    if c = '/' then []
    else if c = '.' then c :: acc
    else filepathExtAux rest (c :: acc)

/-- Embeds filepath.Ext as used on line 46: the suffix of the final path
element beginning at the final dot, or empty when there is none. -/
def filepathExt (path : String) : String :=
  String.mk (filepathExtAux path.toList.reverse [])

/-- The certificate-family extensions of the switch on line 47. -/
def certificateExtensions : List String :=
  [".pem", ".cer", ".cert", ".der", ".ca-bundle", ".crt"]

/-- The PKCS7-family extensions of the switch on line 57. -/
def pkcs7Extensions : List String :=
  [".p7a", ".p7b", ".p7c", ".p7r", ".p7s", ".spc"]

/-- The plugin name returned by GetName (certificates.go line 27). -/
def certificatesPluginName : String := "Certificate File Plugin"

/-- Embeds the per-file callback UpdateBOM passes to fs.WalkDir
(certificates.go lines 45-71), parametrized by the reading and parsing
collaborators: dispatch on the file extension, propagate read errors
unchanged, wrap a parse failure into the ParsingFailedAlthoughChecked
condition, ignore files with unrecognized extensions; returns the error
outcome together with the certificates gathered on success. γ is the
certificate-with-metadata type. -/
def updateBOMFileFn {γ : Type}
    (readFile : String → Except String (List Nat))
    (parseX509 : List Nat → String → Except String (List γ))
    (parsePKCS7 : List Nat → String → Except String (List γ))
    (path : String) : Option FnError × List γ :=
  if filepathExt path ∈ certificateExtensions then
    match readFile path with
    | .error msg => (some (.ioFailure msg), [])
    | .ok raw =>
      match parseX509 raw path with
      | .error e => (some (getParsingFailedAlthoughCheckedError e certificatesPluginName), [])
      | .ok certs => (none, certs)
  else if filepathExt path ∈ pkcs7Extensions then
    match readFile path with
    | .error msg => (some (.ioFailure msg), [])
    | .ok raw =>
      match parsePKCS7 raw path with
      | .error e => (some (getParsingFailedAlthoughCheckedError e certificatesPluginName), [])
      | .ok certs => (none, certs)
  else (none, [])

/-- Embeds PlainFilesystem.WalkDir (provider/filesystem, lines 59-84) over
the list of regular files the walk visits, in order: when the callback
reports an error for which errors.Is matches ErrParsingFailedAlthoughChecked,
the walk logs a warning and continues with the next file; any other callback
error aborts the walk and is returned to the caller. -/
def plainFilesystemWalkDir (fn : String → Option FnError) : List String → Option FnError
  | [] => none
  | p :: rest =>
    match fn p with
    | some e =>
      if errIsParsingFailedAlthoughChecked e then plainFilesystemWalkDir fn rest
      else some e
    | none => plainFilesystemWalkDir fn rest

/-- A PEM block as pem.Decode returns it: its type line and its payload
bytes. -/
structure PemBlock where
  blockType : String
  bytes : List Nat
  deriving Repr, DecidableEq

/-- Loop of parsePKCS7FromPath over the certificates of the parsed PKCS7
object (certificates.go lines 168-174): convert each certificate with
newX509CertificateWithMetadata, returning an empty slice with the error on
the first failure. -/
def pkcs7CertLoop {γ δ : Type} (newX509 : γ → String → Except String δ)
    (path : String) : List γ → List δ → GoResult (List δ × Option String)
  | [], acc => .ok (acc, none)
  | c :: cs, acc =>
    match newX509 c path with
    | .error e => .ok ([], some e)
    | .ok cwm => pkcs7CertLoop newX509 path cs (acc ++ [cwm])

/-- Embeds parsePKCS7FromPath (certificates.go lines 158-177), parametrized
by the external collaborators: pem.Decode (only the first block is used and
the remainder discarded), pkcs7.Parse returning an optional object and an
optional error, and newX509CertificateWithMetadata from x509.go of the same
package. The Go code reads block.Bytes on line 161 without checking the block
against nil, so when pem.Decode finds no PEM block the call panics with a nil
pointer dereference. γ is the raw certificate type of the pkcs7 package and
δ the certificate-with-metadata type. -/
def parsePKCS7FromPath {γ δ : Type}
    (pemDecode : List Nat → Option PemBlock × List Nat)
    (pkcs7Parse : List Nat → Option (List γ) × Option String)
    (newX509 : γ → String → Except String δ)
    (raw : List Nat) (path : String) : GoResult (List δ × Option String) :=
  match (pemDecode raw).1 with
  | none => .panicked nilPointerPanicMsg
  | some block =>
    match pkcs7Parse block.bytes with
    | (_, some e) => .ok ([], some e)
    | (none, none) => .ok ([], none)
    | (some certs, none) => pkcs7CertLoop newX509 path certs []

/-- pem.Decode on input that contains no PEM block — for instance the empty
input — returns a nil block together with the whole input. -/
def pemDecodeNoBlock (raw : List Nat) : Option PemBlock × List Nat := (none, raw)

/-- The external pem.Decode collaborator for the multi-block loop of
parsex509CertFromPath: decode returns an optional first block and the
remaining bytes, and consumes at least one byte whenever it finds a block. -/
structure PemDecoder where
  decode : List Nat → Option PemBlock × List Nat
  shrinks : ∀ s b rest, decode s = (some b, rest) → rest.length < s.length

/-- Embeds the block-collection loop of parsex509CertFromPath
(certificates.go lines 124-138): repeatedly pem.Decode the remainder, keep
the blocks of type CERTIFICATE, skip blocks of any other type with a
warning, and stop when no block is found or no bytes remain. -/
def parsex509CollectLoop (D : PemDecoder) (rest : List Nat) : List PemBlock :=
  if rest = [] then []
  else
    match h : D.decode rest with
    | (none, _) => []
    | (some b, rest') =>
      if b.blockType = "CERTIFICATE" then b :: parsex509CollectLoop D rest'
      else parsex509CollectLoop D rest'
termination_by rest.length
decreasing_by
  all_goals exact D.shrinks rest b rest' h

/-- The full sequence of PEM blocks pem.Decode yields from the input, in
order of appearance; used to state which blocks the collection loop keeps. -/
def pemAllBlocks (D : PemDecoder) (rest : List Nat) : List PemBlock :=
  if rest = [] then []
  else
    match h : D.decode rest with
    | (none, _) => []
    | (some b, rest') => b :: pemAllBlocks D rest'
termination_by rest.length
decreasing_by
  all_goals exact D.shrinks rest b rest' h

/-- Embeds the per-block parsing loop of parsex509CertFromPath
(certificates.go lines 144-152): parse each kept block, return the result of
the failing block together with its error on the first failure, otherwise
concatenate the certificates in block order. parseCerts stands for
parseCertificatesToX509CertificateWithMetadata from x509.go of the same
package, returning a certificate list and an optional error. -/
def parsex509BlockLoop {γ : Type}
    (parseCerts : List Nat → String → List γ × Option String)
    (path : String) : List PemBlock → List γ → List γ × Option String
  | [], acc => (acc, none)
  | b :: bs, acc =>
    match parseCerts b.bytes path with
    | (more, some e) => (more, some e)
    | (more, none) => parsex509BlockLoop parseCerts path bs (acc ++ more)

/-- Embeds parsex509CertFromPath (certificates.go lines 123-155): when the
input yields no CERTIFICATE PEM block the entire raw input is parsed as
binary DER, otherwise each kept block is parsed and the results are
concatenated. -/
def parsex509CertFromPath {γ : Type} (D : PemDecoder)
    (parseCerts : List Nat → String → List γ × Option String)
    (raw : List Nat) (path : String) : List γ × Option String :=
  if parsex509CollectLoop D raw = [] then parseCerts raw path
  else parsex509BlockLoop parseCerts path (parsex509CollectLoop D raw) []

/-- Concrete algorithm properties shared by the example components below. -/
def witnessAlgProps : AlgorithmProperties :=
  ⟨"signature", "softwarePlainRam", "generic",
    some ["fips140-2-l1"], some ["sign"], "pkcs1v15"⟩

/-- Concrete crypto properties of an algorithm component. -/
def witnessCryptoProps : CryptoProperties :=
  ⟨cryptoAssetTypeAlgorithm, some witnessAlgProps, none, none, "1.2.840.113549.1.1.11"⟩

/-- An algorithm component with identifier ref-a. -/
def witnessComponentA : Component := ⟨"ref-a", "SHA256WithRSA", some witnessCryptoProps⟩

/-- The same algorithm component except for its identifier. -/
def witnessComponentB : Component := ⟨"ref-b", "SHA256WithRSA", some witnessCryptoProps⟩

/-- A component whose asset type is not algorithm. -/
def witnessNonAlgorithmComponent : Component :=
  ⟨"ref-c", "some-key", some ⟨"related-crypto-material", none, none, none, ""⟩⟩

/-- The duplicated identifier of the concrete replaceBomRefUsages run. -/
def c3OldRef : String := "dup-alg"

/-- The canonical identifier of the concrete replaceBomRefUsages run. -/
def c3NewRef : String := "canonical-alg"

/-- A certificate component whose own bomRef and both of whose certificate
reference fields equal c3OldRef. -/
def c3Component : Component :=
  ⟨c3OldRef, "cert", some ⟨"certificate", none, some ⟨c3OldRef, c3OldRef⟩, none, ""⟩⟩

/-- One iteration order of a two-entry dependency map. -/
def c2IterationOne : List (String × List String) :=
  [("alg-a", ["dep-x"]), ("alg-b", ["dep-y"])]

/-- The other iteration order of the same dependency map. -/
def c2IterationTwo : List (String × List String) :=
  [("alg-b", ["dep-y"]), ("alg-a", ["dep-x"])]

/-- Detail string of a concrete unknown-algorithm condition. -/
def c5Detail : String := "unknown algorithm oid"

/-- Message of a concrete fatal generateDAG error. -/
def c5Msg : String := "asn1 structure error"

/-- Message of a concrete merge failure. -/
def c5CycleMsg : String := "edge would create a cycle"

/-- A concrete merge that always succeeds, on Nat DAG stand-ins. -/
def c5MergeOk : Nat → Nat → Except String Nat := fun a b => .ok (a + b)

/-- A concrete merge that always fails. -/
def c5MergeFail : Nat → Nat → Except String Nat := fun _ _ => .error c5CycleMsg

/-- A concrete path with a recognized certificate extension. -/
def c6Path : String := "certs/server.pem"

/-- A second concrete path visited after c6Path. -/
def c6PathNext : String := "certs/other.crt"

/-- Message of a concrete parse failure. -/
def c6ParseMsg : String := "x509 malformed certificate"

/-- A concrete file reader that returns empty contents for every path. -/
def c6ReadEmpty : String → Except String (List Nat) := fun _ => .ok []

/-- A concrete parser that fails on every input. -/
def c6ParseFail : List Nat → String → Except String (List Nat) :=
  fun _ _ => .error c6ParseMsg

/-- Message of a concrete read failure. -/
def c6IoMsg : String := "permission denied"

/-- A callback that reports the recoverable parse condition for every file. -/
def c6FnParseErr : String → Option FnError :=
  fun _ => some (getParsingFailedAlthoughCheckedError c6ParseMsg certificatesPluginName)

/-- A callback that reports a fatal read error for every file. -/
def c6FnIoErr : String → Option FnError := fun _ => some (.ioFailure c6IoMsg)

/-- A concrete path with a PKCS7 extension. -/
def c8Path : String := "bundle.p7b"

/-- A concrete pkcs7.Parse stand-in that finds neither object nor error. -/
def c8Pkcs7ParseStub : List Nat → Option (List Nat) × Option String :=
  fun _ => (none, none)

/-- A concrete newX509CertificateWithMetadata stand-in. -/
def c8NewX509Stub : Nat → String → Except String Nat := fun c _ => .ok c

/-- A concrete pem.Decode model used to witness the block-collection
theorems: a leading even byte is a CERTIFICATE block holding that byte, a
leading odd byte an EC PRIVATE KEY block; one byte is consumed per block. -/
def demoDecode : List Nat → Option PemBlock × List Nat
  | [] => (none, [])
  | n :: rest =>
    if n % 2 = 0 then (some ⟨"CERTIFICATE", [n]⟩, rest)
    else (some ⟨"EC PRIVATE KEY", [n]⟩, rest)

/-- The demo decoder packaged with its consumption proof. -/
def demoDecoder : PemDecoder :=
  ⟨demoDecode, by
    intro s b rest h
    cases s with
    | nil => simp [demoDecode] at h
    | cons n rest2 =>
      by_cases hn : n % 2 = 0 <;> simp [demoDecode, hn] at h <;> simp [← h.2]⟩

/-- A concrete input for the demo decoder holding two certificate blocks
around one key block. -/
def c9Raw : List Nat := [2, 1, 4]

/-- A concrete input for the demo decoder holding no certificate block. -/
def c9RawNoCert : List Nat := [3]

/-- A concrete path for the x509 parse runs. -/
def c9Path : String := "certs/chain.pem"

/-- A concrete per-block certificate parser that returns the block bytes. -/
def c9Parse : List Nat → String → List Nat × Option String :=
  fun bytes _ => (bytes, none)

/-- The first dependency record carrying a given Ref, if any; used to state
which record of a slice the merge loop touches. -/
def firstRecord : List Dependency → String → Option Dependency
  | [], _ => none
  | d :: rest, r => if d.ref = r then some d else firstRecord rest r

/-! ## Theorems about the specification claims -/

/-- C1: for components a and b whose crypto properties are populated and
whose asset type is algorithm, strippedAlgorithmEquals returns true exactly
when the eight descriptive fields — name, primitive, execution environment,
implementation platform, certification level list, crypto function list, OID
and padding — all agree. The bomRef identifiers do not occur in the
condition, so two such components differing only in bomRef are judged equal,
and changing any one of the eight fields makes them unequal. -/
theorem strippedAlgorithmEquals_reference_blind
    (a b : Component) (cpa cpb : CryptoProperties) (apa apb : AlgorithmProperties)
    (cla clb cfa cfb : List String)
    (ha : a.cryptoProperties = some cpa) (hb : b.cryptoProperties = some cpb)
    (hta : cpa.assetType = cryptoAssetTypeAlgorithm)
    (htb : cpb.assetType = cryptoAssetTypeAlgorithm)
    (hpa : cpa.algorithmProperties = some apa)
    (hpb : cpb.algorithmProperties = some apb)
    (hla : apa.certificationLevel = some cla)
    (hlb : apb.certificationLevel = some clb)
    (hfa : apa.cryptoFunctions = some cfa)
    (hfb : apb.cryptoFunctions = some cfb) :
    strippedAlgorithmEquals a b = .ok true ↔
      (a.name = b.name ∧ apa.primitive = apb.primitive ∧
       apa.executionEnvironment = apb.executionEnvironment ∧
       apa.implementationPlatform = apb.implementationPlatform ∧
       cla = clb ∧ cfa = cfb ∧ cpa.oid = cpb.oid ∧ apa.padding = apb.padding) := by
  obtain ⟨arf, an, acps⟩ := a
  obtain ⟨brf, bn, bcps⟩ := b
  simp only at ha hb
  subst ha
  subst hb
  obtain ⟨cat, caps, ccps, crps, coid⟩ := cpa
  obtain ⟨dat, daps, dcps, drps, doid⟩ := cpb
  simp only at hta htb hpa hpb
  subst hta
  subst htb
  subst hpa
  subst hpb
  obtain ⟨ap1, ap2, ap3, ap4, ap5, ap6⟩ := apa
  obtain ⟨bp1, bp2, bp3, bp4, bp5, bp6⟩ := apb
  simp only at hla hlb hfa hfb
  subst hla
  subst hlb
  subst hfa
  subst hfb
  simp only [strippedAlgorithmEquals, ne_eq, not_true_eq_false, if_false, ite_false]
  by_cases h1 : an = bn
  · by_cases h2 : ap1 = bp1
    · by_cases h3 : ap2 = bp2
      · by_cases h4 : ap3 = bp3
        · by_cases h5 : cla = clb
          · by_cases h6 : cfa = cfb
            · by_cases h7 : coid = doid
              · by_cases h8 : ap6 = bp6
                · simp [h1, h2, h3, h4, h5, h6, h7, h8]
                · simp [h1, h2, h3, h4, h5, h6, h7, h8]
              · simp [h1, h2, h3, h4, h5, h6, h7]
            · simp [h1, h2, h3, h4, h5, h6]
          · simp [h1, h2, h3, h4, h5]
        · simp [h1, h2, h3, h4]
      · simp [h1, h2, h3]
    · simp [h1, h2]
  · simp [h1]

/-- Witness for C1 at concrete components that differ only in their bomRef. -/
theorem strippedAlgorithmEquals_reference_blind_witness :
    strippedAlgorithmEquals witnessComponentA witnessComponentB = .ok true :=
  (strippedAlgorithmEquals_reference_blind witnessComponentA witnessComponentB
      witnessCryptoProps witnessCryptoProps witnessAlgProps witnessAlgProps
      ["fips140-2-l1"] ["fips140-2-l1"] ["sign"] ["sign"]
      rfl rfl rfl rfl rfl rfl rfl rfl rfl rfl).mpr
    ⟨rfl, rfl, rfl, rfl, rfl, rfl, rfl, rfl⟩

/-- C7: calling strippedAlgorithmEquals with a non-algorithm component in
either argument position panics with its scanner message, and calling
strippedAlgorithmContains with a non-algorithm probe panics with its scanner
message; on a pair of algorithm components whose crypto fields are populated,
as the builder of this engine produces them, the panic branches are
unreachable and the equality check returns a Boolean result. -/
theorem strippedAlgorithm_nonAlgorithm_panics :
    (∀ (a b : Component) (cpa : CryptoProperties),
      a.cryptoProperties = some cpa → cpa.assetType ≠ cryptoAssetTypeAlgorithm →
      strippedAlgorithmEquals a b = .panicked strippedAlgorithmEqualsPanicMsg) ∧
    (∀ (a b : Component) (cpa cpb : CryptoProperties),
      a.cryptoProperties = some cpa → cpa.assetType = cryptoAssetTypeAlgorithm →
      b.cryptoProperties = some cpb → cpb.assetType ≠ cryptoAssetTypeAlgorithm →
      strippedAlgorithmEquals a b = .panicked strippedAlgorithmEqualsPanicMsg) ∧
    (∀ (comp : Component) (list : List Component) (cp : CryptoProperties),
      comp.cryptoProperties = some cp → cp.assetType ≠ cryptoAssetTypeAlgorithm →
      strippedAlgorithmContains comp list = .panicked strippedAlgorithmContainsPanicMsg) ∧
    (∀ (a b : Component) (cpa cpb : CryptoProperties) (apa apb : AlgorithmProperties)
      (cla clb cfa cfb : List String),
      a.cryptoProperties = some cpa → cpa.assetType = cryptoAssetTypeAlgorithm →
      b.cryptoProperties = some cpb → cpb.assetType = cryptoAssetTypeAlgorithm →
      cpa.algorithmProperties = some apa → cpb.algorithmProperties = some apb →
      apa.certificationLevel = some cla → apb.certificationLevel = some clb →
      apa.cryptoFunctions = some cfa → apb.cryptoFunctions = some cfb →
      ∃ r : Bool, strippedAlgorithmEquals a b = .ok r) := by
  refine ⟨?_, ?_, ?_, ?_⟩
  · intro a b cpa ha hta
    obtain ⟨arf, an, acps⟩ := a
    simp only at ha
    subst ha
    simp only [strippedAlgorithmEquals]
    rw [if_pos hta]
  · intro a b cpa cpb ha hta hb htb
    obtain ⟨arf, an, acps⟩ := a
    obtain ⟨brf, bn, bcps⟩ := b
    simp only at ha hb
    subst ha
    subst hb
    simp only [strippedAlgorithmEquals]
    rw [if_neg (not_not_intro hta), if_pos htb]
  · intro comp list cp hc hct
    obtain ⟨crf, cn, ccps⟩ := comp
    simp only at hc
    subst hc
    simp only [strippedAlgorithmContains]
    rw [if_pos hct]
  · intro a b cpa cpb apa apb cla clb cfa cfb ha hta hb htb hpa hpb hla hlb hfa hfb
    obtain ⟨arf, an, acps⟩ := a
    obtain ⟨brf, bn, bcps⟩ := b
    simp only at ha hb
    subst ha
    subst hb
    obtain ⟨cat, caps, ccps, crps, coid⟩ := cpa
    obtain ⟨dat, daps, dcps, drps, doid⟩ := cpb
    simp only at hta htb hpa hpb
    subst hta
    subst htb
    subst hpa
    subst hpb
    obtain ⟨ap1, ap2, ap3, ap4, ap5, ap6⟩ := apa
    obtain ⟨bp1, bp2, bp3, bp4, bp5, bp6⟩ := apb
    simp only at hla hlb hfa hfb
    subst hla
    subst hlb
    subst hfa
    subst hfb
    simp only [strippedAlgorithmEquals, ne_eq, not_true_eq_false, if_false, ite_false]
    split_ifs <;> exact ⟨_, rfl⟩

/-- Witness for C7 at a concrete related-crypto-material component in each
forbidden position, and at a concrete pair of algorithm components. -/
theorem strippedAlgorithm_nonAlgorithm_panics_witness :
    strippedAlgorithmEquals witnessNonAlgorithmComponent witnessComponentA =
      .panicked strippedAlgorithmEqualsPanicMsg ∧
    strippedAlgorithmEquals witnessComponentA witnessNonAlgorithmComponent =
      .panicked strippedAlgorithmEqualsPanicMsg ∧
    strippedAlgorithmContains witnessNonAlgorithmComponent [witnessComponentA] =
      .panicked strippedAlgorithmContainsPanicMsg ∧
    ∃ r : Bool, strippedAlgorithmEquals witnessComponentA witnessComponentB = .ok r :=
  ⟨strippedAlgorithm_nonAlgorithm_panics.1 witnessNonAlgorithmComponent witnessComponentA
      ⟨"related-crypto-material", none, none, none, ""⟩ rfl (by decide),
    strippedAlgorithm_nonAlgorithm_panics.2.1 witnessComponentA witnessNonAlgorithmComponent
      witnessCryptoProps ⟨"related-crypto-material", none, none, none, ""⟩
      rfl rfl rfl (by decide),
    strippedAlgorithm_nonAlgorithm_panics.2.2.1 witnessNonAlgorithmComponent
      [witnessComponentA] ⟨"related-crypto-material", none, none, none, ""⟩ rfl (by decide),
    strippedAlgorithm_nonAlgorithm_panics.2.2.2 witnessComponentA witnessComponentB
      witnessCryptoProps witnessCryptoProps witnessAlgProps witnessAlgProps
      ["fips140-2-l1"] ["fips140-2-l1"] ["sign"] ["sign"]
      rfl rfl rfl rfl rfl rfl rfl rfl rfl rfl⟩

/-- C2 fails on the code, shown at a concrete input: UpdateBOM does seed the
UUID generator with the constant 1, but dependencyMapToStructSlice ranges
over a Go map, whose iteration order is randomized between runs; the two
iteration orders of the same two-entry dependency map are permutations of one
another yet yield different dependency slices, so two runs over byte-identical
input need not emit byte-identical documents. -/
theorem dependencyMapToStructSlice_iteration_order_dependent :
    updateBOMUuidSeed = 1 ∧
    List.Perm c2IterationOne c2IterationTwo ∧
    dependencyMapToStructSlice c2IterationOne ≠
      dependencyMapToStructSlice c2IterationTwo := by
  refine ⟨rfl, ?_, ?_⟩
  · exact List.Perm.swap ("alg-b", ["dep-y"]) ("alg-a", ["dep-x"]) []
  · decide

/-- C3 fails on the code, shown at a concrete input: with the component bomRef
and both certificate reference fields all equal to c3OldRef,
replaceBomRefUsages leaves the bomRef unchanged — the write on line 213
lands on the by-value loop copy — and rewrites only the signature algorithm
reference, skipping the subject public key reference because of the continue
on line 220, so occurrences of the old identifier remain. -/
theorem replaceBomRefUsages_misses_occurrences :
    replaceBomRefUsages c3OldRef c3NewRef [c3Component] =
      [⟨c3OldRef, "cert",
        some ⟨"certificate", none, some ⟨c3NewRef, c3OldRef⟩, none, ""⟩⟩] := by
  decide

/-- C5: in the certificate loop of UpdateBOM, an unknown-algorithm outcome of
generateDAG does not abort — the partial DAG returned alongside the error is
merged and the loop continues with the remaining certificates — while any
other generateDAG error aborts the loop with that error, and a merge failure
aborts the loop with that error, for the unknown-algorithm case and the
error-free case alike. -/
theorem updateBOMCertLoop_error_dispatch {δ ε : Type} (merge : δ → δ → Except ε δ)
    (dag certDAG dag2 : δ) (d msg : String) (e : ε)
    (rest : List (δ × Option GenerateDAGError)) :
    (merge dag certDAG = .ok dag2 →
      updateBOMCertLoop merge dag ((certDAG, some (.x509UnknownAlgorithm d)) :: rest) =
        updateBOMCertLoop merge dag2 rest) ∧
    (updateBOMCertLoop merge dag ((certDAG, some (.other msg)) :: rest) =
      .error (.generateFailed (.other msg))) ∧
    (merge dag certDAG = .error e →
      updateBOMCertLoop merge dag ((certDAG, some (.x509UnknownAlgorithm d)) :: rest) =
        .error (.mergeFailed e)) ∧
    (merge dag certDAG = .error e →
      updateBOMCertLoop merge dag ((certDAG, none) :: rest) = .error (.mergeFailed e)) := by
  refine ⟨?_, ?_, ?_, ?_⟩
  · intro h
    simp [updateBOMCertLoop, h]
  · simp [updateBOMCertLoop]
  · intro h
    simp [updateBOMCertLoop, h]
  · intro h
    simp [updateBOMCertLoop, h]

/-- Witness for C5 on Nat DAG stand-ins with a succeeding and a failing
merge. -/
theorem updateBOMCertLoop_error_dispatch_witness :
    updateBOMCertLoop c5MergeOk 0 [(1, some (.x509UnknownAlgorithm c5Detail))] =
      updateBOMCertLoop c5MergeOk 1 [] ∧
    updateBOMCertLoop c5MergeOk 0 [(1, some (.other c5Msg))] =
      .error (.generateFailed (.other c5Msg)) ∧
    updateBOMCertLoop c5MergeFail 0 [(1, some (.x509UnknownAlgorithm c5Detail))] =
      .error (.mergeFailed c5CycleMsg) ∧
    updateBOMCertLoop c5MergeFail 0 [(1, none)] = .error (.mergeFailed c5CycleMsg) :=
  ⟨(updateBOMCertLoop_error_dispatch c5MergeOk 0 1 1 c5Detail c5Msg c5CycleMsg []).1 rfl,
    (updateBOMCertLoop_error_dispatch c5MergeOk 0 1 1 c5Detail c5Msg c5CycleMsg []).2.1,
    (updateBOMCertLoop_error_dispatch c5MergeFail 0 1 1 c5Detail c5Msg c5CycleMsg
      []).2.2.1 rfl,
    (updateBOMCertLoop_error_dispatch c5MergeFail 0 1 1 c5Detail c5Msg c5CycleMsg
      []).2.2.2 rfl⟩

/-- C6: a file whose extension matches the recognized certificate class but
whose bytes fail to parse yields the ParsingFailedAlthoughChecked condition
wrapped around the parse error; the walker, on seeing exactly that condition,
continues with the remaining files; every other error the callback returns
aborts the walk and is propagated to the caller. -/
theorem walkDir_parse_failure_recoverable {γ : Type}
    (readFile : String → Except String (List Nat))
    (parseX509 parsePKCS7 : List Nat → String → Except String (List γ))
    (path : String) (raw : List Nat) (e : String)
    (fn : String → Option FnError) (rest : List String) (err : FnError) :
    (filepathExt path ∈ certificateExtensions → readFile path = .ok raw →
      parseX509 raw path = .error e →
      (updateBOMFileFn readFile parseX509 parsePKCS7 path).1 =
        some (getParsingFailedAlthoughCheckedError e certificatesPluginName)) ∧
    (fn path = some err → errIsParsingFailedAlthoughChecked err = true →
      plainFilesystemWalkDir fn (path :: rest) = plainFilesystemWalkDir fn rest) ∧
    (fn path = some err → errIsParsingFailedAlthoughChecked err = false →
      plainFilesystemWalkDir fn (path :: rest) = some err) := by
  refine ⟨?_, ?_, ?_⟩
  · intro hext hread hparse
    simp [updateBOMFileFn, hext, hread, hparse]
  · intro hfn herr
    simp [plainFilesystemWalkDir, hfn, herr]
  · intro hfn herr
    simp [plainFilesystemWalkDir, hfn, herr]

/-- Witness for C6 at a concrete .pem path whose contents fail to parse, and
at concrete recoverable and fatal callbacks. -/
theorem walkDir_parse_failure_recoverable_witness :
    (updateBOMFileFn c6ReadEmpty c6ParseFail c6ParseFail c6Path).1 =
      some (getParsingFailedAlthoughCheckedError c6ParseMsg certificatesPluginName) ∧
    plainFilesystemWalkDir c6FnParseErr [c6Path, c6PathNext] =
      plainFilesystemWalkDir c6FnParseErr [c6PathNext] ∧
    plainFilesystemWalkDir c6FnIoErr [c6Path, c6PathNext] = some (.ioFailure c6IoMsg) :=
  ⟨(walkDir_parse_failure_recoverable c6ReadEmpty c6ParseFail c6ParseFail c6Path []
      c6ParseMsg c6FnParseErr [c6PathNext] (.ioFailure c6IoMsg)).1
      (by decide) rfl rfl,
    (walkDir_parse_failure_recoverable c6ReadEmpty c6ParseFail c6ParseFail c6Path []
      c6ParseMsg c6FnParseErr [c6PathNext]
      (getParsingFailedAlthoughCheckedError c6ParseMsg certificatesPluginName)).2.1
      rfl rfl,
    (walkDir_parse_failure_recoverable c6ReadEmpty c6ParseFail c6ParseFail c6Path []
      c6ParseMsg c6FnIoErr [c6PathNext] (.ioFailure c6IoMsg)).2.2 rfl rfl⟩

/-- C8 fails on the code, shown at a concrete input: on raw bytes containing
no PEM block — here the empty file — parsePKCS7FromPath dereferences the nil
block pem.Decode returned and panics instead of returning a decode error. -/
theorem parsePKCS7FromPath_panics_on_non_pem :
    parsePKCS7FromPath pemDecodeNoBlock c8Pkcs7ParseStub c8NewX509Stub [] c8Path =
      .panicked nilPointerPanicMsg := rfl

/-- Folding the contains-check step over a list starting from an extended
accumulator splits into the untouched prefix and a fold that filters against
both parts. -/
theorem foldl_mem_step (ts : List String) :
    ∀ (existing acc : List String),
      ts.foldl (fun a s => if s ∈ a then a else a ++ [s]) (existing ++ acc) =
        existing ++
          ts.foldl (fun a s => if s ∈ existing ∨ s ∈ a then a else a ++ [s]) acc := by
  induction ts with
  | nil => intro existing acc; rfl
  | cons t ts ih =>
    intro existing acc
    simp only [List.foldl_cons]
    by_cases h : t ∈ existing ∨ t ∈ acc
    · rw [if_pos (List.mem_append.mpr h), if_pos h]
      exact ih existing acc
    · rw [if_neg (fun hm => h (List.mem_append.mp hm)), if_neg h, List.append_assoc]
      exact ih existing (acc ++ [t])

/-- The incremental target merge of the source equals the union described by
the spec: existing targets first, then the new targets not already present,
in order of first appearance. -/
theorem mergeDependencyTargets_eq_union (existing ts : List String) :
    mergeDependencyTargets existing ts = unionFirstAppearance existing ts := by
  have h := foldl_mem_step ts existing []
  simpa [mergeDependencyTargets, unionFirstAppearance] using h

/-- The index loop returns -1 exactly when no record carries the Ref, for any
nonnegative starting index. -/
theorem indexBomRefAux_neg_one (bomRef : String) :
    ∀ (l : List Dependency) (i : Int), 0 ≤ i →
      (indexBomRefAux l bomRef i = -1 ↔ ∀ d ∈ l, d.ref ≠ bomRef) := by
  intro l
  induction l with
  | nil => intro i hi; simp [indexBomRefAux]
  | cons d rest ih =>
    intro i hi
    by_cases hd : d.ref = bomRef
    · simp only [indexBomRefAux, if_pos hd]
      constructor
      · intro h; exact absurd h (by omega)
      · intro h; exact absurd hd (h d (List.mem_cons_self d rest))
    · simp only [indexBomRefAux, if_neg hd]
      rw [ih (i + 1) (by omega)]
      constructor
      · intro h d2 hm
        rcases List.mem_cons.mp hm with h1 | h1
        · rw [h1]; exact hd
        · exact h d2 h1
      · intro h d2 hm
        exact h d2 (List.mem_cons_of_mem d hm)

/-- IndexBomRefInDependencySlice returns -1 exactly when the Ref is absent. -/
theorem indexBomRef_neg_one_iff (l : List Dependency) (bomRef : String) :
    IndexBomRefInDependencySlice l bomRef = -1 ↔ ∀ d ∈ l, d.ref ≠ bomRef :=
  indexBomRefAux_neg_one bomRef l 0 (by omega)

/-- One source merge step equals one spec merge step: merge into the first
record the index search finds, or append when the search returns -1. -/
theorem mergeDependencyIntoFirst_eq_specStep (o : Dependency) :
    ∀ cur : List Dependency,
      mergeDependencyIntoFirst o cur =
        (if IndexBomRefInDependencySlice cur o.ref = -1 then cur ++ [o]
         else specUpdateFirstRecord o cur) := by
  intro cur
  induction cur with
  | nil =>
    rw [if_pos ((indexBomRef_neg_one_iff [] o.ref).mpr (by simp))]
    rfl
  | cons d rest ih =>
    by_cases hd : d.ref = o.ref
    · have hidx : ¬IndexBomRefInDependencySlice (d :: rest) o.ref = -1 := by
        rw [indexBomRef_neg_one_iff]
        intro hall
        exact hall d (List.mem_cons_self d rest) hd
      rw [if_neg hidx]
      simp only [mergeDependencyIntoFirst, specUpdateFirstRecord, if_pos hd,
        mergeDependencyTargets_eq_union]
    · by_cases hr : IndexBomRefInDependencySlice rest o.ref = -1
      · have hidx : IndexBomRefInDependencySlice (d :: rest) o.ref = -1 := by
          rw [indexBomRef_neg_one_iff] at hr ⊢
          intro d2 hm
          rcases List.mem_cons.mp hm with h1 | h1
          · rw [h1]; exact hd
          · exact hr d2 h1
        rw [if_pos hidx]
        simp only [mergeDependencyIntoFirst, if_neg hd, ih, if_pos hr]
        rfl
      · have hidx : ¬IndexBomRefInDependencySlice (d :: rest) o.ref = -1 := by
          rw [indexBomRef_neg_one_iff]
          intro hall
          exact hr ((indexBomRef_neg_one_iff rest o.ref).mpr
            (fun d2 hm => hall d2 (List.mem_cons_of_mem d hm)))
        rw [if_neg hidx]
        simp only [mergeDependencyIntoFirst, if_neg hd, ih, if_neg hr,
          specUpdateFirstRecord]

/-- C4: MergeDependencyStructSlice realizes the union semantics the spec
states — records of the incoming slice whose Ref already occurs are unioned
into the first existing record for that Ref, keeping existing targets and
appending the new targets not already present in order of first appearance
without duplicates, and records whose Ref is absent are appended whole —
while UpdateBOM appends component records to the pre-existing components
with no deduplication against them. -/
theorem mergeDependencyStructSlice_spec_and_append
    (thisSlice other : List Dependency) (existing newComponents : List Component) :
    MergeDependencyStructSlice thisSlice other =
      MergeDependencyStructSliceSpec thisSlice other ∧
    updateBOMAppendComponents existing newComponents = existing ++ newComponents := by
  constructor
  · induction other generalizing thisSlice with
    | nil => rfl
    | cons o rest ih =>
      have h1 : MergeDependencyStructSlice thisSlice (o :: rest) =
          MergeDependencyStructSlice (mergeDependencyIntoFirst o thisSlice) rest := rfl
      have h2 : MergeDependencyStructSliceSpec thisSlice (o :: rest) =
          MergeDependencyStructSliceSpec
            (if IndexBomRefInDependencySlice thisSlice o.ref = -1 then thisSlice ++ [o]
             else specUpdateFirstRecord o thisSlice) rest := rfl
      rw [h1, h2, ← mergeDependencyIntoFirst_eq_specStep]
      exact ih (mergeDependencyIntoFirst o thisSlice)
  · rfl

/-- Existing targets survive the target merge. -/
theorem mem_mergeDependencyTargets_left (existing ts : List String) (s : String)
    (h : s ∈ existing) : s ∈ mergeDependencyTargets existing ts := by
  rw [mergeDependencyTargets_eq_union]
  exact List.mem_append_left _ h

/-- Every incoming target occurs in the merged target list. -/
theorem mem_mergeDependencyTargets_right (ts : List String) :
    ∀ (existing : List String) (s : String), s ∈ ts →
      s ∈ mergeDependencyTargets existing ts := by
  induction ts with
  | nil => intro existing s h; simp at h
  | cons t ts ih =>
    intro existing s h
    have hstep : mergeDependencyTargets existing (t :: ts) =
        mergeDependencyTargets (if t ∈ existing then existing else existing ++ [t]) ts := rfl
    rw [hstep]
    rcases List.mem_cons.mp h with h1 | h1
    · subst h1
      apply mem_mergeDependencyTargets_left
      split_ifs with he
      · exact he
      · exact List.mem_append_right _ (by simp)
    · exact ih _ s h1

/-- Merging targets that are all already present changes nothing. -/
theorem mergeDependencyTargets_no_new (ts : List String) :
    ∀ existing : List String, (∀ s ∈ ts, s ∈ existing) →
      mergeDependencyTargets existing ts = existing := by
  induction ts with
  | nil => intro existing _; rfl
  | cons t ts ih =>
    intro existing h
    have ht : t ∈ existing := h t (List.mem_cons_self t ts)
    have hstep : mergeDependencyTargets existing (t :: ts) =
        mergeDependencyTargets (if t ∈ existing then existing else existing ++ [t]) ts := rfl
    rw [hstep, if_pos ht]
    exact ih existing (fun s hs => h s (List.mem_cons_of_mem t hs))

/-- A merge step leaves the first record of every other Ref untouched. -/
theorem firstRecord_mergeIntoFirst_other (o : Dependency) (R : String) (hR : R ≠ o.ref) :
    ∀ cur : List Dependency,
      firstRecord (mergeDependencyIntoFirst o cur) R = firstRecord cur R := by
  intro cur
  induction cur with
  | nil =>
    simp only [mergeDependencyIntoFirst, firstRecord]
    rw [if_neg (fun h => hR h.symm)]
  | cons d rest ih =>
    by_cases hd : d.ref = o.ref
    · have hdR : ¬d.ref = R := by
        rw [hd]
        exact fun h => hR h.symm
      simp only [mergeDependencyIntoFirst, if_pos hd, firstRecord, if_neg hdR]
    · by_cases hdR : d.ref = R
      · simp only [mergeDependencyIntoFirst, if_neg hd, firstRecord, if_pos hdR]
      · simp only [mergeDependencyIntoFirst, if_neg hd, firstRecord, if_neg hdR]
        exact ih

/-- A merge step makes the first record of the incoming Ref hold the merged
targets, or the incoming record itself when the Ref was absent. -/
theorem firstRecord_mergeIntoFirst_self (o : Dependency) :
    ∀ cur : List Dependency,
      firstRecord (mergeDependencyIntoFirst o cur) o.ref =
        (match firstRecord cur o.ref with
         | none => some o
         | some d => some ⟨d.ref, mergeDependencyTargets d.dependencies o.dependencies⟩) := by
  intro cur
  induction cur with
  | nil => simp [mergeDependencyIntoFirst, firstRecord]
  | cons d rest ih =>
    by_cases hd : d.ref = o.ref
    · simp [mergeDependencyIntoFirst, firstRecord, hd]
    · simp only [mergeDependencyIntoFirst, if_neg hd, firstRecord, if_neg hd]
      exact ih

/-- The containment of an incoming record in the first record of its Ref is
preserved by any later merge step. -/
theorem firstRecord_sub_preserved (o o2 : Dependency) (cur : List Dependency)
    (h : ∃ d, firstRecord cur o.ref = some d ∧
      ∀ s ∈ o.dependencies, s ∈ d.dependencies) :
    ∃ d, firstRecord (mergeDependencyIntoFirst o2 cur) o.ref = some d ∧
      ∀ s ∈ o.dependencies, s ∈ d.dependencies := by
  obtain ⟨d, hd, hsub⟩ := h
  by_cases hr : o.ref = o2.ref
  · refine ⟨⟨d.ref, mergeDependencyTargets d.dependencies o2.dependencies⟩, ?_, ?_⟩
    · rw [hr, firstRecord_mergeIntoFirst_self o2 cur, ← hr, hd]
    · intro s hs
      exact mem_mergeDependencyTargets_left _ _ _ (hsub s hs)
  · exact ⟨d, by rw [firstRecord_mergeIntoFirst_other o2 o.ref hr cur]; exact hd, hsub⟩

/-- The containment is preserved by merging a whole slice. -/
theorem firstRecord_sub_merge (o : Dependency) (l : List Dependency) :
    ∀ cur : List Dependency,
      (∃ d, firstRecord cur o.ref = some d ∧
        ∀ s ∈ o.dependencies, s ∈ d.dependencies) →
      ∃ d, firstRecord (MergeDependencyStructSlice cur l) o.ref = some d ∧
        ∀ s ∈ o.dependencies, s ∈ d.dependencies := by
  induction l with
  | nil => intro cur h; exact h
  | cons o2 rest ih =>
    intro cur h
    exact ih _ (firstRecord_sub_preserved o o2 cur h)

/-- After a merge step with a record, the first record of its Ref contains
all its targets. -/
theorem firstRecord_after_mergeIntoFirst (o : Dependency) (cur : List Dependency) :
    ∃ d, firstRecord (mergeDependencyIntoFirst o cur) o.ref = some d ∧
      ∀ s ∈ o.dependencies, s ∈ d.dependencies := by
  cases hfr : firstRecord cur o.ref with
  | none =>
    refine ⟨o, ?_, fun s hs => hs⟩
    rw [firstRecord_mergeIntoFirst_self o cur, hfr]
  | some d =>
    refine ⟨⟨d.ref, mergeDependencyTargets d.dependencies o.dependencies⟩, ?_, ?_⟩
    · rw [firstRecord_mergeIntoFirst_self o cur, hfr]
    · intro s hs
      exact mem_mergeDependencyTargets_right _ _ s hs

/-- After merging a slice, for each of its records the first record of that
Ref in the result contains all its targets. -/
theorem merged_first_contains (other : List Dependency) :
    ∀ (thisSlice : List Dependency) (o : Dependency), o ∈ other →
      ∃ d, firstRecord (MergeDependencyStructSlice thisSlice other) o.ref = some d ∧
        ∀ s ∈ o.dependencies, s ∈ d.dependencies := by
  induction other with
  | nil => intro thisSlice o h; simp at h
  | cons o2 rest ih =>
    intro thisSlice o h
    have hstep : MergeDependencyStructSlice thisSlice (o2 :: rest) =
        MergeDependencyStructSlice (mergeDependencyIntoFirst o2 thisSlice) rest := rfl
    rw [hstep]
    rcases List.mem_cons.mp h with h1 | h1
    · subst h1
      exact firstRecord_sub_merge o rest _ (firstRecord_after_mergeIntoFirst o thisSlice)
    · exact ih _ o h1

/-- A merge step with a record whose targets are all contained in the first
record of its Ref changes nothing. -/
theorem mergeDependencyIntoFirst_no_op (o : Dependency) :
    ∀ cur : List Dependency,
      (∃ d, firstRecord cur o.ref = some d ∧
        ∀ s ∈ o.dependencies, s ∈ d.dependencies) →
      mergeDependencyIntoFirst o cur = cur := by
  intro cur
  induction cur with
  | nil =>
    intro h
    obtain ⟨d, hd, _⟩ := h
    simp [firstRecord] at hd
  | cons d2 rest ih =>
    intro h
    obtain ⟨d, hd, hsub⟩ := h
    by_cases hd2 : d2.ref = o.ref
    · simp only [firstRecord, if_pos hd2, Option.some.injEq] at hd
      subst hd
      simp only [mergeDependencyIntoFirst, if_pos hd2]
      rw [mergeDependencyTargets_no_new o.dependencies d2.dependencies hsub]
    · simp only [mergeDependencyIntoFirst, if_neg hd2]
      congr 1
      apply ih
      refine ⟨d, ?_, hsub⟩
      simpa [firstRecord, hd2] using hd

/-- Merging a slice whose records are all already contained changes
nothing. -/
theorem merge_no_op (other : List Dependency) :
    ∀ cur : List Dependency,
      (∀ o ∈ other, ∃ d, firstRecord cur o.ref = some d ∧
        ∀ s ∈ o.dependencies, s ∈ d.dependencies) →
      MergeDependencyStructSlice cur other = cur := by
  induction other with
  | nil => intro cur _; rfl
  | cons o rest ih =>
    intro cur h
    have hstep : MergeDependencyStructSlice cur (o :: rest) =
        MergeDependencyStructSlice (mergeDependencyIntoFirst o cur) rest := rfl
    rw [hstep, mergeDependencyIntoFirst_no_op o cur (h o (List.mem_cons_self o rest))]
    exact ih cur (fun o2 h2 => h o2 (List.mem_cons_of_mem o h2))

/-- C10: MergeDependencyStructSlice is idempotent in its second argument —
merging the same slice a second time changes neither the records nor the
order of any target list. -/
theorem mergeDependencyStructSlice_idempotent (thisSlice other : List Dependency) :
    MergeDependencyStructSlice (MergeDependencyStructSlice thisSlice other) other =
      MergeDependencyStructSlice thisSlice other :=
  merge_no_op other (MergeDependencyStructSlice thisSlice other)
    (fun o ho => merged_first_contains other thisSlice o ho)

/-- The collection loop stops on empty input. -/
theorem parsex509CollectLoop_nil (D : PemDecoder) : parsex509CollectLoop D [] = [] := by
  unfold parsex509CollectLoop
  simp

/-- The block sequence stops on empty input. -/
theorem pemAllBlocks_nil (D : PemDecoder) : pemAllBlocks D [] = [] := by
  unfold pemAllBlocks
  simp

/-- The collection loop stops when pem.Decode finds no block. -/
theorem parsex509CollectLoop_decode_none (D : PemDecoder) (rest : List Nat)
    (hne : rest ≠ []) (x : List Nat) (h : D.decode rest = (none, x)) :
    parsex509CollectLoop D rest = [] := by
  conv_lhs => rw [parsex509CollectLoop.eq_def]
  rw [if_neg hne]
  split
  · rfl
  · next b rest2 heq =>
    rw [h] at heq
    simp at heq

/-- The collection loop keeps a decoded CERTIFICATE block and skips any other
block, continuing on the remaining bytes. -/
theorem parsex509CollectLoop_decode_some (D : PemDecoder) (rest : List Nat)
    (hne : rest ≠ []) (b : PemBlock) (rest' : List Nat)
    (h : D.decode rest = (some b, rest')) :
    parsex509CollectLoop D rest =
      (if b.blockType = "CERTIFICATE" then b :: parsex509CollectLoop D rest'
       else parsex509CollectLoop D rest') := by
  conv_lhs => rw [parsex509CollectLoop.eq_def]
  rw [if_neg hne]
  split
  · next x heq =>
    rw [h] at heq
    simp at heq
  · next b2 rest2 heq =>
    rw [h] at heq
    have hb : b = b2 := by
      have := congrArg Prod.fst heq
      simpa using this
    have hr : rest' = rest2 := by
      have := congrArg Prod.snd heq
      simpa using this
    rw [← hb, ← hr]

/-- The block sequence stops when pem.Decode finds no block. -/
theorem pemAllBlocks_decode_none (D : PemDecoder) (rest : List Nat)
    (hne : rest ≠ []) (x : List Nat) (h : D.decode rest = (none, x)) :
    pemAllBlocks D rest = [] := by
  conv_lhs => rw [pemAllBlocks.eq_def]
  rw [if_neg hne]
  split
  · rfl
  · next b rest2 heq =>
    rw [h] at heq
    simp at heq

/-- The block sequence keeps every decoded block, continuing on the
remaining bytes. -/
theorem pemAllBlocks_decode_some (D : PemDecoder) (rest : List Nat)
    (hne : rest ≠ []) (b : PemBlock) (rest' : List Nat)
    (h : D.decode rest = (some b, rest')) :
    pemAllBlocks D rest = b :: pemAllBlocks D rest' := by
  conv_lhs => rw [pemAllBlocks.eq_def]
  rw [if_neg hne]
  split
  · next x heq =>
    rw [h] at heq
    simp at heq
  · next b2 rest2 heq =>
    rw [h] at heq
    have hb : b = b2 := by
      have := congrArg Prod.fst heq
      simpa using this
    have hr : rest' = rest2 := by
      have := congrArg Prod.snd heq
      simpa using this
    rw [← hb, ← hr]

/-- On inputs of bounded length, the inline-filtering collection loop keeps
exactly the CERTIFICATE-typed blocks of the full block sequence, in order. -/
theorem collect_filter_aux (D : PemDecoder) :
    ∀ (n : Nat) (raw : List Nat), raw.length ≤ n →
      parsex509CollectLoop D raw =
        (pemAllBlocks D raw).filter (fun b => b.blockType == "CERTIFICATE") := by
  intro n
  induction n with
  | zero =>
    intro raw h
    have hr : raw = [] := by
      cases raw
      · rfl
      · simp at h
    subst hr
    rw [parsex509CollectLoop_nil, pemAllBlocks_nil]
    rfl
  | succ n ih =>
    intro raw h
    by_cases hne : raw = []
    · subst hne
      rw [parsex509CollectLoop_nil, pemAllBlocks_nil]
      rfl
    · cases hd : D.decode raw with
      | mk ob rest2 =>
        cases ob with
        | none =>
          rw [parsex509CollectLoop_decode_none D raw hne rest2 hd,
            pemAllBlocks_decode_none D raw hne rest2 hd]
          rfl
        | some b =>
          have hlen : rest2.length ≤ n := by
            have := D.shrinks raw b rest2 hd
            omega
          rw [parsex509CollectLoop_decode_some D raw hne b rest2 hd,
            pemAllBlocks_decode_some D raw hne b rest2 hd, List.filter_cons]
          by_cases hb : b.blockType = "CERTIFICATE"
          · rw [ih rest2 hlen]
            simp [hb]
          · rw [ih rest2 hlen]
            simp [hb]

/-- When every block parses cleanly, the per-block loop returns the
accumulator followed by the concatenated per-block certificates. -/
theorem parsex509BlockLoop_all_ok {γ : Type}
    (parseCerts : List Nat → String → List γ × Option String) (path : String) :
    ∀ (blocks : List PemBlock) (acc : List γ),
      (∀ b ∈ blocks, (parseCerts b.bytes path).2 = none) →
      parsex509BlockLoop parseCerts path blocks acc =
        (acc ++ (blocks.map (fun b => (parseCerts b.bytes path).1)).flatten, none) := by
  intro blocks
  induction blocks with
  | nil => intro acc _; simp [parsex509BlockLoop]
  | cons b bs ih =>
    intro acc h
    have hb := h b (List.mem_cons_self b bs)
    cases hp : parseCerts b.bytes path with
    | mk more err =>
      rw [hp] at hb
      simp only at hb
      subst hb
      simp only [parsex509BlockLoop, hp]
      rw [ih (acc ++ more) (fun b2 h2 => h b2 (List.mem_cons_of_mem b h2))]
      simp [hp, List.append_assoc]

/-- C9: the collection loop of parsex509CertFromPath keeps exactly the
CERTIFICATE-typed PEM blocks, in order of appearance, skipping blocks of any
other type; when no CERTIFICATE block is found — also when the input holds
only non-CERTIFICATE blocks — the entire raw input is parsed as binary DER;
and when every kept block parses cleanly, the result is the concatenation of
the per-block certificates in block order. -/
theorem parsex509CertFromPath_blocks {γ : Type} (D : PemDecoder)
    (parseCerts : List Nat → String → List γ × Option String)
    (raw : List Nat) (path : String) :
    parsex509CollectLoop D raw =
      (pemAllBlocks D raw).filter (fun b => b.blockType == "CERTIFICATE") ∧
    (parsex509CollectLoop D raw = [] →
      parsex509CertFromPath D parseCerts raw path = parseCerts raw path) ∧
    (parsex509CollectLoop D raw ≠ [] →
      (∀ b ∈ parsex509CollectLoop D raw, (parseCerts b.bytes path).2 = none) →
      parsex509CertFromPath D parseCerts raw path =
        (((parsex509CollectLoop D raw).map (fun b => (parseCerts b.bytes path).1)).flatten,
          none)) := by
  refine ⟨collect_filter_aux D raw.length raw (le_refl _), ?_, ?_⟩
  · intro h
    simp [parsex509CertFromPath, h]
  · intro hne hall
    simp only [parsex509CertFromPath, if_neg hne]
    simpa using parsex509BlockLoop_all_ok parseCerts path (parsex509CollectLoop D raw) [] hall

/-- Witness for C9 at the demo decoder: an input with two certificate blocks
around a key block, and an input with only a key block. -/
theorem parsex509CertFromPath_blocks_witness :
    parsex509CollectLoop demoDecoder c9Raw =
      (pemAllBlocks demoDecoder c9Raw).filter (fun b => b.blockType == "CERTIFICATE") ∧
    parsex509CertFromPath demoDecoder c9Parse c9RawNoCert c9Path =
      c9Parse c9RawNoCert c9Path ∧
    parsex509CertFromPath demoDecoder c9Parse c9Raw c9Path =
      (((parsex509CollectLoop demoDecoder c9Raw).map
        (fun b => (c9Parse b.bytes c9Path).1)).flatten, none) := by
  have h4 : parsex509CollectLoop demoDecoder [4] = [⟨"CERTIFICATE", [4]⟩] := by
    rw [parsex509CollectLoop_decode_some demoDecoder [4] (by decide)
      ⟨"CERTIFICATE", [4]⟩ [] rfl]
    rw [if_pos rfl, parsex509CollectLoop_nil]
  have h14 : parsex509CollectLoop demoDecoder [1, 4] = [⟨"CERTIFICATE", [4]⟩] := by
    rw [parsex509CollectLoop_decode_some demoDecoder [1, 4] (by decide)
      ⟨"EC PRIVATE KEY", [1]⟩ [4] rfl]
    rw [if_neg (by decide), h4]
  have h214 : parsex509CollectLoop demoDecoder c9Raw =
      [⟨"CERTIFICATE", [2]⟩, ⟨"CERTIFICATE", [4]⟩] := by
    rw [parsex509CollectLoop_decode_some demoDecoder c9Raw (by decide)
      ⟨"CERTIFICATE", [2]⟩ [1, 4] rfl]
    rw [if_pos rfl, h14]
  have h3 : parsex509CollectLoop demoDecoder c9RawNoCert = [] := by
    rw [parsex509CollectLoop_decode_some demoDecoder c9RawNoCert (by decide)
      ⟨"EC PRIVATE KEY", [3]⟩ [] rfl]
    rw [if_neg (by decide), parsex509CollectLoop_nil]
  refine ⟨(parsex509CertFromPath_blocks demoDecoder c9Parse c9Raw c9Path).1, ?_, ?_⟩
  · exact (parsex509CertFromPath_blocks demoDecoder c9Parse c9RawNoCert c9Path).2.1 h3
  · exact (parsex509CertFromPath_blocks demoDecoder c9Parse c9Raw c9Path).2.2
      (by rw [h214]; decide) (by rw [h214]; decide)
